import Mathlib

/-!
Verification development for the Argos campus-management core
(concurrency manager, enrollment service, scheduler service,
distributed coordinator).  Each Python service is shallowly embedded as
explicit state passing over executable Lean definitions; machine details
that the claims do not touch (threads, wall-clock time, uuid strings,
event publication) are modelled by deterministic counterparts noted at
the definition site.
-/

namespace Argos

/-- Association-list lookup, first match wins: the model of reading a
Python dict entry (dict keys are unique, so first match is the match). -/
def alookup {κ β : Type} [DecidableEq κ] (k : κ) : List (κ × β) → Option β
  | [] => none
  | (k', v) :: rest => if k' = k then some v else alookup k rest

/-- Association-list write: the model of `d[k] = v` on a Python dict —
overwrite in place if the key exists, else append (insertion order). -/
def aset {κ β : Type} [DecidableEq κ] (k : κ) (v : β) : List (κ × β) → List (κ × β)
  | [] => [(k, v)]
  | (k', v') :: rest => if k' = k then (k, v) :: rest else (k', v') :: aset k v rest

/-- Association-list removal: the model of `d.pop(k)` / `del d[k]`. -/
def aremove {κ β : Type} [DecidableEq κ] (k : κ) : List (κ × β) → List (κ × β)
  | [] => []
  | (k', v') :: rest => if k' = k then rest else (k', v') :: aremove k rest

/-- Association-list in-place value update, the model of mutating the
object stored under a key (`d[k]['field'] = ...`). -/
def aupdate {κ β : Type} [DecidableEq κ] (k : κ) (f : β → β) : List (κ × β) → List (κ × β)
  | [] => []
  | (k', v') :: rest => if k' = k then (k', f v') :: rest else (k', v') :: aupdate k f rest

theorem alookup_aset_eq {κ β : Type} [DecidableEq κ] (k : κ) (v : β) (l : List (κ × β)) :
    alookup k (aset k v l) = some v := by
  induction l with
  | nil => simp [alookup, aset]
  | cons p rest ih =>
      by_cases h : p.1 = k
      · simp [aset, h, alookup]
      · simp [aset, h, alookup, ih]

theorem alookup_aset_ne {κ β : Type} [DecidableEq κ] {k k' : κ} (v : β) (l : List (κ × β))
    (h : k' ≠ k) : alookup k' (aset k v l) = alookup k' l := by
  induction l with
  | nil => simp [alookup, aset, Ne.symm h]
  | cons p rest ih =>
      by_cases hp : p.1 = k
      · subst hp
        simp [aset, alookup, Ne.symm h, h]
      · simp only [aset, if_neg hp]
        by_cases hp' : p.1 = k'
        · simp [alookup, hp']
        · simp [alookup, hp', ih]

theorem alookup_aremove_ne {κ β : Type} [DecidableEq κ] {k k' : κ} (l : List (κ × β))
    (h : k' ≠ k) : alookup k' (aremove k l) = alookup k' l := by
  induction l with
  | nil => simp [aremove]
  | cons p rest ih =>
      by_cases hp : p.1 = k
      · subst hp
        simp [aremove, alookup, Ne.symm h]
      · by_cases hp' : p.1 = k'
        · simp [aremove, hp, alookup, hp', h]
        · simp [aremove, hp, alookup, hp', ih]

/-! ## Lock manager (`argos/services/concurrency_manager.py`) -/

/-- Lock types, from `LockType` in `concurrency_manager.py`. -/
inductive LockType : Type
  | read
  | write
  | exclusive
  deriving DecidableEq, Repr

/-- The `.value` string of a `LockType` member. -/
def LockType.value : LockType → String
  | .read => "read"
  | .write => "write"
  | .exclusive => "exclusive"

/-- One held lock: `LockInfo` from the source, with uuid lock ids
modelled as consecutive naturals (uuids are fresh and opaque; only
identity matters).  `acquired_at` and `timeout` are dropped: the claims
below quantify over explicit acquire/release sequences, not the
background expiry sweep. -/
structure LockInfo : Type where
  lockId : Nat
  resourceId : String
  lockType : LockType
  holderId : String
  deriving DecidableEq, Repr

/-- State of `ConcurrencyManager`: the flat contents of `_locks` /
`_lock_holders` (the nested resource → type → set-of-ids table and the
id → info table describe exactly one multiset of held locks; emptied
inner entries are deleted by `release_lock`, so a type key is present
iff some lock of that type is held). -/
structure LockState : Type where
  locks : List LockInfo
  nextId : Nat
  deriving Repr

def emptyLockState : LockState := ⟨[], 0⟩

/-- `ConcurrencyManager._can_acquire_lock`.  The first loop returns
True as soon as any lock on the resource belongs to `holderId`; only
otherwise are the per-type compatibility rules consulted. -/
def canAcquireLock (st : LockState) (resourceId : String) (lockType : LockType)
    (holderId : String) : Bool :=
  let existing := st.locks.filter (fun l => l.resourceId == resourceId)
  if existing.any (fun l => l.holderId == holderId) then
    true
  else
    match lockType with
    | .read =>
        !(existing.any (fun l => l.lockType == .write)) &&
          !(existing.any (fun l => l.lockType == .exclusive))
    | .write => existing.isEmpty
    | .exclusive => existing.isEmpty

/-- `ConcurrencyManager.acquire_lock`: on success the fresh lock id is
returned and the lock recorded; on conflict a `ConcurrencyError` is
raised, modelled as `Except.error` with the source's message. -/
def acquireLock (st : LockState) (resourceId : String) (lockType : LockType)
    (holderId : String) : Except String Nat × LockState :=
  if canAcquireLock st resourceId lockType holderId then
    (Except.ok st.nextId,
      { locks := st.locks ++ [⟨st.nextId, resourceId, lockType, holderId⟩],
        nextId := st.nextId + 1 })
  else
    (Except.error ("Cannot acquire " ++ lockType.value ++ " lock on " ++ resourceId), st)

/-- `ConcurrencyManager.release_lock`: returns False for an unknown
lock id, else removes the lock. -/
def releaseLock (st : LockState) (lockId : Nat) : Bool × LockState :=
  if st.locks.any (fun l => l.lockId == lockId) then
    (true, { st with locks := st.locks.filter (fun l => !(l.lockId == lockId)) })
  else
    (false, st)

/-- An operation against the lock manager. -/
inductive LockOp : Type
  | acquire (resourceId : String) (lockType : LockType) (holderId : String)
  | release (lockId : Nat)

def applyLockOp (st : LockState) : LockOp → LockState
  | .acquire r t h => (acquireLock st r t h).2
  | .release i => (releaseLock st i).2

def applyLockOps (ops : List LockOp) : LockState :=
  ops.foldl applyLockOp emptyLockState

/-- The mutual-exclusion property claimed for the lock table: any two
locks on the same resource held by different holders are both READ
locks (this is exactly "no two distinct holders hold WRITE/EXCLUSIVE,
and nobody holds WRITE/EXCLUSIVE against another holder's READ"). -/
def lockMutualExclusion (st : LockState) : Bool :=
  st.locks.all (fun l1 => st.locks.all (fun l2 =>
    !(l1.resourceId == l2.resourceId) || (l1.holderId == l2.holderId) ||
      ((l1.lockType == .read) && (l2.lockType == .read))))

/-- The three-acquire sequence that defeats the invariant: A and B take
READ locks on R1, then A requests WRITE on R1.  The same-holder fast
path in `_can_acquire_lock` sees A's own READ lock and grants the WRITE
without ever checking B's READ lock. -/
def lockBugOps : List LockOp :=
  [.acquire "R1" .read "A", .acquire "R1" .read "B", .acquire "R1" .write "A"]

/-- C1: refuted on the code.  Replaying `lockBugOps` from the empty
lock table leaves holder A with a WRITE lock on R1 while holder B still
holds a READ lock on R1 (all three acquires succeed, as the resulting
lock table shows), so the claimed mutual-exclusion invariant is false:
`acquire_lock` grants WRITE/EXCLUSIVE to a holder that already holds
any lock on the resource even when different holders also hold locks. -/
theorem c1_lock_mutual_exclusion_violated :
    (applyLockOps lockBugOps).locks =
      [⟨0, "R1", .read, "A"⟩, ⟨1, "R1", .read, "B"⟩, ⟨2, "R1", .write, "A"⟩] ∧
    lockMutualExclusion (applyLockOps lockBugOps) = false := by
  constructor
  · rfl
  · rfl

/-! ## Enrollment service (`argos/services/enrollment_service.py`)

The service is embedded sequentially: the scoped WRITE lock taken by
`enroll_student`/`drop_student` always succeeds in a single-threaded
run (the holder id is fresh per thread and no other lock is held), so
the `ConcurrencyError` branches are unreachable here and the lock is
not threaded through the state.  Event publication is external. -/

/-- `EnrollmentStatus` from the source. -/
inductive EnrollmentStatus : Type
  | pending
  | confirmed
  | waitlisted
  | dropped
  | rejected
  deriving DecidableEq, Repr

/-- The `Student` entity, reduced to the fields the embedded code paths
consult: `enroll_student`/`drop_student` read only `student.id` (the
default policies' `can_enroll` ignore the student, and `get_priority`
is never called by the service). -/
structure Student : Type where
  id : String
  deriving DecidableEq, Repr

/-- The `Section` entity as seen by the enrollment service: the service
reads `section.id`, `section.course_id`, `section.enrolled_count` and
`section.capacity` and never mutates the entity, so `enrolledCount` is
a plain field of the passed-in value. -/
structure Section : Type where
  id : String
  courseId : String
  enrolledCount : Nat
  capacity : Nat
  deriving DecidableEq, Repr

/-- An enrollment policy as used by `_evaluate_policies`: only
`can_enroll` and `get_policy_name` are consulted by the service. -/
structure EnrollmentPolicy : Type where
  name : String
  canEnroll : Student → Section → Bool

/-- `PrerequisiteCheckPolicy.can_enroll`: `student_courses` is the
empty set in the source ("Would be populated from student's completed
courses"), so the subset test passes iff the course has no required
prerequisites recorded. -/
def prerequisitePolicy (coursePrereqs : List (String × List String)) : EnrollmentPolicy where
  name := "PrerequisiteCheckPolicy"
  canEnroll := fun _ sec =>
    match alookup sec.courseId coursePrereqs with
    | none => true
    | some required =>
        let studentCourses : List String := []
        required.all (fun c => studentCourses.contains c)

/-- `QuotaPolicy.can_enroll`. -/
def quotaPolicy (maxEnrollments : Nat) : EnrollmentPolicy where
  name := "QuotaPolicy"
  canEnroll := fun _ sec => sec.enrolledCount < maxEnrollments

/-- `PriorityPolicy.can_enroll` (always permits). -/
def priorityPolicy : EnrollmentPolicy where
  name := "PriorityPolicy"
  canEnroll := fun _ _ => true

/-- The default policy chain installed by `_add_default_policies`. -/
def defaultPolicies : List EnrollmentPolicy :=
  [prerequisitePolicy
      [("CS301", ["CS201", "CS202"]), ("CS401", ["CS301"]),
        ("MATH301", ["MATH201", "MATH202"])],
    quotaPolicy 30,
    priorityPolicy]

/-- `EnrollmentResult` from the source (metadata dropped: always empty
on the paths modelled here). -/
structure EnrollmentResult : Type where
  success : Bool
  status : EnrollmentStatus
  message : String
  waitlistPosition : Option Nat := none
  deriving DecidableEq, Repr

/-- State of `EnrollmentService`: `_enrollments` (student → section →
status) and `_waitlists` (section → ordered student list). -/
structure EnrollState : Type where
  enrollments : List (String × List (String × EnrollmentStatus))
  waitlists : List (String × List String)
  deriving DecidableEq, Repr

def emptyEnrollState : EnrollState := ⟨[], []⟩

/-- `EnrollmentService._is_enrolled`: true only for a CONFIRMED record. -/
def isEnrolled (st : EnrollState) (studentId sectionId : String) : Bool :=
  match alookup studentId st.enrollments with
  | none => false
  | some m =>
      match alookup sectionId m with
      | none => false
      | some s => s == .confirmed

/-- `EnrollmentService._enroll_student_direct`. -/
def enrollStudentDirect (st : EnrollState) (studentId sectionId : String) : EnrollState :=
  let m := (alookup studentId st.enrollments).getD []
  { st with enrollments := aset studentId (aset sectionId .confirmed m) st.enrollments }

/-- `EnrollmentService._add_to_waitlist`: append if not present, then
report the 1-based index. -/
def addToWaitlist (st : EnrollState) (studentId sectionId : String) : Nat × EnrollState :=
  let w := (alookup sectionId st.waitlists).getD []
  let w' := if studentId ∈ w then w else w ++ [studentId]
  (w'.indexOf studentId + 1, { st with waitlists := aset sectionId w' st.waitlists })

/-- `EnrollmentService._evaluate_policies`: first failing policy wins. -/
def evaluatePolicies (policies : List EnrollmentPolicy) (student : Student)
    (sec : Section) : Bool × String :=
  match policies with
  | [] => (true, "All policies satisfied")
  | p :: rest =>
      if p.canEnroll student sec then evaluatePolicies rest student sec
      else (false, "Policy violation: " ++ p.name)

/-- `EnrollmentService.enroll_student`. -/
def enrollStudent (policies : List EnrollmentPolicy) (st : EnrollState)
    (student : Student) (sec : Section) : EnrollmentResult × EnrollState :=
  if isEnrolled st student.id sec.id then
    (⟨true, .confirmed, "Student already enrolled", none⟩, st)
  else
    let eval := evaluatePolicies policies student sec
    if !eval.1 then
      (⟨false, .rejected, eval.2, none⟩, st)
    else if sec.enrolledCount < sec.capacity then
      (⟨true, .confirmed, "Student enrolled successfully", none⟩,
        enrollStudentDirect st student.id sec.id)
    else
      let r := addToWaitlist st student.id sec.id
      (⟨true, .waitlisted,
          "Student added to waitlist at position " ++ toString r.1, some r.1⟩,
        r.2)

/-- `EnrollmentService.drop_student`. -/
def dropStudent (st : EnrollState) (studentId sectionId : String) :
    EnrollmentResult × EnrollState :=
  if !(isEnrolled st studentId sectionId) then
    (⟨false, .dropped, "Student not enrolled in this section", none⟩, st)
  else
    -- Remove from enrollments
    let enr1 :=
      match alookup studentId st.enrollments with
      | none => st.enrollments
      | some m =>
          let m' := aremove sectionId m
          if m'.isEmpty then aremove studentId st.enrollments
          else aset studentId m' st.enrollments
    -- Remove from waitlist if present
    let wl1 :=
      match alookup sectionId st.waitlists with
      | none => st.waitlists
      | some w => aset sectionId (w.erase studentId) st.waitlists
    let st1 : EnrollState := ⟨enr1, wl1⟩
    -- Move next student from waitlist to enrolled
    let st2 :=
      match alookup sectionId st1.waitlists with
      | some (next :: rest) =>
          enrollStudentDirect { st1 with waitlists := aset sectionId rest st1.waitlists }
            next sectionId
      | _ => st1
    (⟨true, .dropped, "Student dropped successfully", none⟩, st2)

/-- `EnrollmentService.get_section_enrollment_count`: confirmed records
for the section across all students. -/
def sectionEnrollmentCount (st : EnrollState) (sectionId : String) : Nat :=
  st.enrollments.foldl
    (fun acc p =>
      match alookup sectionId p.2 with
      | some s => if s == .confirmed then acc + 1 else acc
      | none => acc)
    0

/-- `EnrollmentService.get_section_waitlist_count`. -/
def sectionWaitlistCount (st : EnrollState) (sectionId : String) : Nat :=
  ((alookup sectionId st.waitlists).getD []).length

/-- `EnrollmentService.get_waitlist_position`. -/
def getWaitlistPosition (st : EnrollState) (studentId sectionId : String) : Option Nat :=
  match alookup sectionId st.waitlists with
  | none => none
  | some w => if studentId ∈ w then some (w.indexOf studentId + 1) else none

/-- A capacity-1 section with no entity-level enrollees: the failing
input for the over-enrollment claim. -/
def c2Section : Section := ⟨"SEC1", "CS101", 0, 1⟩

/-- Two distinct enrolls into `c2Section` from the empty service state. -/
def c2Run : (EnrollmentResult × EnrollmentResult) × EnrollState :=
  let r1 := enrollStudent defaultPolicies emptyEnrollState ⟨"alice"⟩ c2Section
  let r2 := enrollStudent defaultPolicies r1.2 ⟨"bob"⟩ c2Section
  ((r1.1, r2.1), r2.2)

/-- C2: refuted on the code.  `enroll_student` gates on
`section.enrolled_count < section.capacity`, but the service never
updates the Section entity (`_enroll_student_direct` touches only the
service's own `_enrollments` map), so with capacity C = 1 and N = 2
distinct students enrolling from the empty state both end CONFIRMED
(2 > capacity) and the waitlist stays empty, against the claimed
"exactly C confirmed, N − C waitlisted". -/
theorem c2_capacity_never_enforced :
    c2Section.capacity = 1 ∧
    c2Run.1.1 = ⟨true, .confirmed, "Student enrolled successfully", none⟩ ∧
    c2Run.1.2 = ⟨true, .confirmed, "Student enrolled successfully", none⟩ ∧
    sectionEnrollmentCount c2Run.2 "SEC1" = 2 ∧
    sectionWaitlistCount c2Run.2 "SEC1" = 0 := by
  refine ⟨rfl, rfl, rfl, rfl, rfl⟩

/-- A service state in which student "carol" is waitlisted (and only
waitlisted) for section "SEC1": produced by enrolling her into a full
section (entity reports `enrolled_count = capacity = 1`). -/
def c5State : EnrollState :=
  (enrollStudent defaultPolicies emptyEnrollState ⟨"carol"⟩ ⟨"SEC1", "CS101", 1, 1⟩).2

/-- C5: refuted on the code.  "carol" is on the SEC1 waitlist, yet
`drop_student` fails for her: `_is_enrolled` requires a CONFIRMED
record and waitlisted students have none, so the guard rejects the drop
before the waitlist-removal branch can run, and the waitlist is
unchanged — the claimed `waitlisted → dropped` transition is
unreachable. -/
theorem c5_waitlisted_drop_fails :
    getWaitlistPosition c5State "carol" "SEC1" = some 1 ∧
    isEnrolled c5State "carol" "SEC1" = false ∧
    dropStudent c5State "carol" "SEC1" =
      (⟨false, .dropped, "Student not enrolled in this section", none⟩, c5State) := by
  refine ⟨rfl, rfl, rfl⟩

theorem isEnrolled_iff (st : EnrollState) (sid secId : String) :
    isEnrolled st sid secId = true ↔
      ∃ m, alookup sid st.enrollments = some m ∧
        alookup secId m = some EnrollmentStatus.confirmed := by
  unfold isEnrolled
  cases h1 : alookup sid st.enrollments with
  | none => simp
  | some m =>
      cases h2 : alookup secId m with
      | none => simp [h2]
      | some s =>
          cases s <;> simp [h2]

/-- The frame of `isEnrolled` under updates to other students. -/
theorem isEnrolled_congr (st st' : EnrollState) (s secId : String)
    (h : alookup s st'.enrollments = alookup s st.enrollments) :
    isEnrolled st' s secId = isEnrolled st s secId := by
  unfold isEnrolled
  rw [h]

/-- C9: confirmed on the code.  When (student, section) is already
CONFIRMED, `enroll_student` returns success with status CONFIRMED and
the message "Student already enrolled" before touching any state: the
whole enrollment state (confirmed memberships and all waitlists) is
returned unchanged. -/
theorem c9_enroll_idempotent_when_confirmed (policies : List EnrollmentPolicy)
    (st : EnrollState) (student : Student) (sec : Section)
    (h : isEnrolled st student.id sec.id = true) :
    enrollStudent policies st student sec =
      (⟨true, .confirmed, "Student already enrolled", none⟩, st) := by
  unfold enrollStudent
  rw [h]
  simp

/-- A state in which "dave" is confirmed in section "S9". -/
def c9State : EnrollState :=
  (enrollStudent defaultPolicies emptyEnrollState ⟨"dave"⟩ ⟨"S9", "CS102", 0, 5⟩).2

theorem c9_enroll_idempotent_witness :
    isEnrolled c9State "dave" "S9" = true ∧
    enrollStudent defaultPolicies c9State ⟨"dave"⟩ ⟨"S9", "CS102", 0, 5⟩ =
      (⟨true, .confirmed, "Student already enrolled", none⟩, c9State) :=
  ⟨rfl, c9_enroll_idempotent_when_confirmed defaultPolicies c9State ⟨"dave"⟩
    ⟨"S9", "CS102", 0, 5⟩ rfl⟩

/-- C6: confirmed on the code.  Dropping a confirmed student from a
section whose waitlist is non-empty (in particular from a full section)
promotes exactly the waitlist head `w1` to CONFIRMED, leaves the
waitlist equal to the tail (one shorter), and changes no other
student's confirmed status or any other section's waitlist.  The code
promotes whenever the waitlist is non-empty, without consulting the
section's capacity, so the claimed full-section case is an instance. -/
theorem c6_drop_promotes_fifo_head (st : EnrollState) (sid secId w1 : String)
    (rest : List String)
    (hconf : isEnrolled st sid secId = true)
    (hw : alookup secId st.waitlists = some (w1 :: rest))
    (hnotin : sid ∉ w1 :: rest) :
    (dropStudent st sid secId).1 = ⟨true, .dropped, "Student dropped successfully", none⟩ ∧
    isEnrolled (dropStudent st sid secId).2 w1 secId = true ∧
    alookup secId (dropStudent st sid secId).2.waitlists = some rest ∧
    (∀ s, s ≠ sid → s ≠ w1 → ∀ secId',
      isEnrolled (dropStudent st sid secId).2 s secId' = isEnrolled st s secId') ∧
    (∀ secId', secId' ≠ secId →
      alookup secId' (dropStudent st sid secId).2.waitlists =
        alookup secId' st.waitlists) := by
  obtain ⟨m, hm, hms⟩ := (isEnrolled_iff st sid secId).mp hconf
  have herase : (w1 :: rest).erase sid = w1 :: rest := List.erase_of_not_mem hnotin
  have hstep : dropStudent st sid secId =
      (⟨true, .dropped, "Student dropped successfully", none⟩,
        enrollStudentDirect
          ⟨(if (aremove secId m).isEmpty then aremove sid st.enrollments
              else aset sid (aremove secId m) st.enrollments),
            aset secId rest (aset secId (w1 :: rest) st.waitlists)⟩
          w1 secId) := by
    unfold dropStudent
    rw [hconf]
    simp only [Bool.not_true, Bool.false_eq_true, if_false, hm, hw, herase,
      alookup_aset_eq]
  rw [hstep]
  set enr1 := (if (aremove secId m).isEmpty then aremove sid st.enrollments
      else aset sid (aremove secId m) st.enrollments) with henr1
  have hframe : ∀ s, s ≠ sid → alookup s enr1 = alookup s st.enrollments := by
    intro s hs
    rw [henr1]
    by_cases he : (aremove secId m).isEmpty
    · rw [if_pos he, alookup_aremove_ne _ hs]
    · rw [if_neg he, alookup_aset_ne _ _ hs]
  refine ⟨rfl, ?_, ?_, ?_, ?_⟩
  · rw [isEnrolled_iff]
    refine ⟨aset secId .confirmed ((alookup w1 enr1).getD []), ?_, ?_⟩
    · exact alookup_aset_eq _ _ _
    · exact alookup_aset_eq _ _ _
  · exact alookup_aset_eq _ _ _
  · intro s hsid hw1 secId'
    apply isEnrolled_congr
    show alookup s (aset w1 _ enr1) = _
    rw [alookup_aset_ne _ _ hw1, hframe s hsid]
  · intro secId' hne
    show alookup secId' (aset secId rest (aset secId (w1 :: rest) st.waitlists)) = _
    rw [alookup_aset_ne _ _ hne, alookup_aset_ne _ _ hne]

/-- A state in which "alice" is confirmed in "S" and "bob" is the sole
waitlisted student for "S": alice enrolled while the section entity had
a free seat, bob enrolled once the entity reported itself full. -/
def c6State : EnrollState :=
  (enrollStudent defaultPolicies
    (enrollStudent defaultPolicies emptyEnrollState ⟨"alice"⟩ ⟨"S", "CS101", 0, 1⟩).2
    ⟨"bob"⟩ ⟨"S", "CS101", 1, 1⟩).2

theorem c6_drop_promotes_fifo_head_witness :
    (dropStudent c6State "alice" "S").1 =
      ⟨true, .dropped, "Student dropped successfully", none⟩ ∧
    isEnrolled (dropStudent c6State "alice" "S").2 "bob" "S" = true ∧
    alookup "S" (dropStudent c6State "alice" "S").2.waitlists = some [] := by
  have h := c6_drop_promotes_fifo_head c6State "alice" "S" "bob" [] rfl rfl
    (by decide)
  exact ⟨h.1, h.2.1, h.2.2.1⟩

/-! ## Retry helper (`ConcurrencyManager.execute_with_retry`)

The callable `func` is modelled by the outcome of its k-th invocation
(`f k`); `time.sleep` durations are recorded rather than waited for.
The slept duration `backoff_factor * (2 ** attempt)` is modelled over
the rationals (scaling by a power of two is exact in binary floating
point, so nothing is lost for these claims). -/

/-- Outcome of one call to the retried function: a returned value, a
raised `ConcurrencyError`, or any other raised exception. -/
inductive FnOutcome (α : Type) : Type
  | ret (a : α)
  | concErr (msg : String)
  | otherErr (msg : String)
  deriving DecidableEq, Repr

/-- How `execute_with_retry` itself terminates. -/
inductive RetryTermination (α : Type) : Type
  | returned (a : α)
  | raisedConc (msg : String)
  | raisedOther (msg : String)
  deriving DecidableEq, Repr

/-- Observable trace of one `execute_with_retry` run: the termination,
how many times `func` was called, and the recorded sleep durations in
order. -/
structure RetryTrace (α : Type) : Type where
  outcome : RetryTermination α
  calls : Nat
  sleeps : List ℚ
  deriving DecidableEq, Repr

/-- The loop body of `execute_with_retry`: `remaining` counts the
attempts left after the current one, so `remaining > 0` is exactly the
source's `attempt < max_retries` guard; a sleep of
`backoff_factor * 2 ^ attempt` precedes each retry, the last
`ConcurrencyError` is re-raised once retries are exhausted, and any
other exception propagates at once. -/
def retryGo {α : Type} (f : Nat → FnOutcome α) (backoff : ℚ) :
    Nat → Nat → List ℚ → RetryTrace α
  | attempt, remaining, sleeps =>
    match f attempt with
    | .ret a => ⟨.returned a, attempt + 1, sleeps⟩
    | .otherErr m => ⟨.raisedOther m, attempt + 1, sleeps⟩
    | .concErr m =>
        match remaining with
        | 0 => ⟨.raisedConc m, attempt + 1, sleeps⟩
        | r + 1 => retryGo f backoff (attempt + 1) r (sleeps ++ [backoff * 2 ^ attempt])

/-- `ConcurrencyManager.execute_with_retry`: `max_retries + 1` attempts
starting at attempt 0. -/
def executeWithRetry {α : Type} (f : Nat → FnOutcome α) (maxRetries : Nat)
    (backoff : ℚ) : RetryTrace α :=
  retryGo f backoff 0 maxRetries []

theorem retryGo_conc_steps {α : Type} (f : Nat → FnOutcome α) (backoff : ℚ) :
    ∀ (k attempt remaining : Nat) (sleeps : List ℚ), k ≤ remaining →
      (∀ j, j < k → ∃ m, f (attempt + j) = .concErr m) →
      retryGo f backoff attempt remaining sleeps =
        retryGo f backoff (attempt + k) (remaining - k)
          (sleeps ++ (List.range k).map (fun a => backoff * 2 ^ (attempt + a))) := by
  intro k
  induction k with
  | zero => intro attempt remaining sleeps _ _; simp
  | succ n ih =>
      intro attempt remaining sleeps hle hconc
      obtain ⟨m, hm⟩ := hconc 0 (Nat.succ_pos n)
      rw [Nat.add_zero] at hm
      cases remaining with
      | zero => exact absurd hle (by omega)
      | succ r =>
          have hstep : retryGo f backoff attempt (r + 1) sleeps =
              retryGo f backoff (attempt + 1) r (sleeps ++ [backoff * 2 ^ attempt]) := by
            rw [retryGo, hm]
          rw [hstep,
            ih (attempt + 1) r (sleeps ++ [backoff * 2 ^ attempt]) (by omega)
              (fun j hj => by
                have hj' := hconc (j + 1) (by omega)
                rwa [show attempt + (j + 1) = attempt + 1 + j by omega] at hj')]
          congr 1
          · omega
          · omega
          · rw [List.append_assoc]
            congr 1
            rw [List.range_succ_eq_map, List.map_cons, List.map_map]
            simp only [List.singleton_append, Nat.add_zero]
            congr 1
            apply List.map_congr_left
            intro a _
            simp only [Function.comp_apply]
            rw [show attempt + 1 + a = attempt + a.succ by omega]

/-- C8: confirmed on the code.  For every function behaviour `f`:
(i) if the first `k ≤ max_retries` calls raise `ConcurrencyError` and
call `k` returns `v`, the run returns `v` after `k + 1` calls having
slept `backoff * 2 ^ a` before each retry `a + 1`;
(ii) if call `k` instead raises a non-`ConcurrencyError` exception, it
propagates immediately — `k + 1` calls, no further retry;
(iii) if every one of the `max_retries + 1` attempts raises
`ConcurrencyError`, the last one is re-raised after exactly
`max_retries + 1` calls and `max_retries` sleeps. -/
theorem c8_execute_with_retry_spec {α : Type} (f : Nat → FnOutcome α)
    (maxRetries k : Nat) (backoff : ℚ) (v : α) (e : String) :
    (k ≤ maxRetries → (∀ j, j < k → ∃ m, f j = .concErr m) → f k = .ret v →
      executeWithRetry f maxRetries backoff =
        ⟨.returned v, k + 1, (List.range k).map (fun a => backoff * 2 ^ a)⟩) ∧
    (k ≤ maxRetries → (∀ j, j < k → ∃ m, f j = .concErr m) → f k = .otherErr e →
      executeWithRetry f maxRetries backoff =
        ⟨.raisedOther e, k + 1, (List.range k).map (fun a => backoff * 2 ^ a)⟩) ∧
    ((∀ j, j < maxRetries → ∃ m, f j = .concErr m) → f maxRetries = .concErr e →
      executeWithRetry f maxRetries backoff =
        ⟨.raisedConc e, maxRetries + 1,
          (List.range maxRetries).map (fun a => backoff * 2 ^ a)⟩) := by
  have hpre : ∀ (k' : Nat), k' ≤ maxRetries →
      (∀ j, j < k' → ∃ m, f j = .concErr m) →
      executeWithRetry f maxRetries backoff =
        retryGo f backoff k' (maxRetries - k')
          ((List.range k').map (fun a => backoff * 2 ^ a)) := by
    intro k' hk hc
    unfold executeWithRetry
    rw [retryGo_conc_steps f backoff k' 0 maxRetries [] hk
      (fun j hj => by rw [Nat.zero_add]; exact hc j hj)]
    simp
  refine ⟨?_, ?_, ?_⟩
  · intro hk hc hr
    rw [hpre k hk hc, retryGo, hr]
  · intro hk hc hr
    rw [hpre k hk hc, retryGo, hr]
  · intro hc hr
    rw [hpre maxRetries le_rfl hc, retryGo, hr]
    simp

/-- Function behaviours exercising the three branches of the retry
contract. -/
def c8fA : Nat → FnOutcome Nat := fun j => if j = 0 then .concErr "conflict" else .ret 42

def c8fB : Nat → FnOutcome Nat := fun j => if j = 0 then .concErr "conflict" else .otherErr "boom"

def c8fC : Nat → FnOutcome Nat := fun _ => .concErr "conflict"

theorem c8_execute_with_retry_witness :
    executeWithRetry c8fA 3 1 = ⟨.returned 42, 2, [1]⟩ ∧
    executeWithRetry c8fB 3 1 = ⟨.raisedOther "boom", 2, [1]⟩ ∧
    executeWithRetry c8fC 2 1 = ⟨.raisedConc "conflict", 3, [1, 2]⟩ := by
  have hj1 : ∀ j, j < 1 → ∃ m, c8fA j = FnOutcome.concErr m := by
    intro j hj
    have hj0 : j = 0 := by omega
    exact ⟨"conflict", by rw [hj0]; rfl⟩
  have hj1' : ∀ j, j < 1 → ∃ m, c8fB j = FnOutcome.concErr m := by
    intro j hj
    have hj0 : j = 0 := by omega
    exact ⟨"conflict", by rw [hj0]; rfl⟩
  have hj2 : ∀ j, j < 2 → ∃ m, c8fC j = FnOutcome.concErr m :=
    fun j _ => ⟨"conflict", rfl⟩
  refine ⟨?_, ?_, ?_⟩
  · have h := (c8_execute_with_retry_spec c8fA 3 1 1 42 "").1 (by omega) hj1 rfl
    rw [h]
    norm_num [List.range_succ]
  · have h := (c8_execute_with_retry_spec c8fB 3 1 1 0 "boom").2.1 (by omega) hj1' rfl
    rw [h]
    norm_num [List.range_succ]
  · have h := (c8_execute_with_retry_spec c8fC 2 2 1 0 "conflict").2.2 hj2 rfl
    rw [h]
    norm_num [List.range_succ]

/-! ## Two-phase commit (`argos/services/distributed_coordinator.py`)

`execute_transaction` is embedded sequentially: the prepare/commit/abort
tasks are awaited per participant in list order, and `asyncio.wait_for`
wrapping maps a timeout or exception to a False entry in the phase
results.  Calls actually issued to participants are recorded in a
trace. -/

/-- `CoordinationStatus` from the source. -/
inductive CoordinationStatus : Type
  | pending
  | inProgress
  | committed
  | aborted
  | timedOut
  deriving DecidableEq, Repr

/-- Outcome of awaiting one participant call: a returned boolean, or a
timeout/exception (both are recorded as False by the phase loops). -/
inductive POutcome : Type
  | val (b : Bool)
  | err
  deriving DecidableEq, Repr

/-- The `except` wrapper around `asyncio.wait_for` in the three phase
methods: a raised timeout or exception counts as False. -/
def collectOutcome : POutcome → Bool
  | .val b => b
  | .err => false

/-- A registered participant, described by the outcomes of its
`prepare`, `commit` and `abort` calls. -/
structure Participant : Type where
  prepareR : POutcome
  commitR : POutcome
  abortR : POutcome
  deriving DecidableEq, Repr

/-- A call issued to a participant during a transaction. -/
inductive PCall : Type
  | prepareCall (pid : String)
  | commitCall (pid : String)
  | abortCall (pid : String)
  deriving DecidableEq, Repr

/-- The common shape of `_prepare_phase` / `_commit_phase` /
`_abort_phase`: participants named in the request but not registered
are silently skipped; each registered one is called and its collected
boolean recorded under its id. -/
def phaseResults (regs : List (String × Participant)) (pids : List String)
    (get : Participant → POutcome) : List (String × Bool) :=
  pids.filterMap (fun pid =>
    (alookup pid regs).map (fun p => (pid, collectOutcome (get p))))

/-- The calls a phase issues, in order. -/
def phaseCallList (regs : List (String × Participant)) (pids : List String)
    (mk : String → PCall) : List PCall :=
  pids.filterMap (fun pid => (alookup pid regs).map (fun _ => mk pid))

/-- `CoordinationResult` from the source. -/
structure CoordinationResult : Type where
  success : Bool
  status : CoordinationStatus
  message : String
  participantsResults : List (String × Bool)
  operationId : String
  deriving DecidableEq, Repr

/-- `TwoPhaseCommitCoordinator.execute_transaction`, returning the
structured result together with the trace of participant calls.  The
status stored in the `_operations` table by `_update_operation_status`
always equals the returned `status` field, so it is not duplicated
here. -/
def executeTransaction (regs : List (String × Participant)) (operationId : String)
    (participants : List String) : CoordinationResult × List PCall :=
  let prepRes := phaseResults regs participants (fun p => p.prepareR)
  let prepCalls := phaseCallList regs participants .prepareCall
  if prepRes.all (fun pr => pr.2) then
    let commitRes := phaseResults regs participants (fun p => p.commitR)
    let commitCalls := phaseCallList regs participants .commitCall
    if commitRes.all (fun pr => pr.2) then
      (⟨true, .committed, "Transaction committed successfully", commitRes, operationId⟩,
        prepCalls ++ commitCalls)
    else
      let abortCalls := phaseCallList regs participants .abortCall
      (⟨false, .aborted, "Transaction aborted due to commit failures", commitRes,
          operationId⟩,
        prepCalls ++ commitCalls ++ abortCalls)
  else
    let abortCalls := phaseCallList regs participants .abortCall
    (⟨false, .aborted, "Transaction aborted due to prepare failures", prepRes,
        operationId⟩,
      prepCalls ++ abortCalls)

/-- Two participants: p1 prepares and commits successfully, p2 prepares
but fails its commit call. -/
def c3Regs : List (String × Participant) :=
  [("p1", ⟨.val true, .val true, .val true⟩), ("p2", ⟨.val true, .val false, .val true⟩)]

/-- C3: the "no compensating call" half of the claim is false on the
code.  With every participant prepared and p2's commit failing, the
final status is indeed ABORTED, but `execute_transaction` then runs
`_abort_phase` over ALL participants: p1, whose commit already
succeeded (its result records True), receives an abort call. -/
theorem c3_abort_issued_to_committed_counterexample :
    (executeTransaction c3Regs "op1" ["p1", "p2"]).1.status = .aborted ∧
    ("p1", true) ∈ (executeTransaction c3Regs "op1" ["p1", "p2"]).1.participantsResults ∧
    PCall.abortCall "p1" ∈ (executeTransaction c3Regs "op1" ["p1", "p2"]).2 := by
  refine ⟨rfl, ?_, ?_⟩
  · decide
  · decide

theorem phaseResults_mem (regs : List (String × Participant)) (pids : List String)
    (get : Participant → POutcome) (pr : String × Bool)
    (h : pr ∈ phaseResults regs pids get) :
    pr.1 ∈ pids ∧ ∃ p, alookup pr.1 regs = some p ∧ collectOutcome (get p) = pr.2 := by
  simp only [phaseResults, List.mem_filterMap] at h
  obtain ⟨pid', hmem, hmap⟩ := h
  cases hreg : alookup pid' regs with
  | none => rw [hreg] at hmap; exact absurd hmap (by simp)
  | some p =>
      rw [hreg] at hmap
      have hmap' : (pid', collectOutcome (get p)) = pr := by simpa using hmap
      subst hmap'
      exact ⟨hmem, p, hreg, rfl⟩

theorem phaseResults_mem_of (regs : List (String × Participant)) (pids : List String)
    (get : Participant → POutcome) (pid : String) (p : Participant)
    (hmem : pid ∈ pids) (hreg : alookup pid regs = some p) :
    (pid, collectOutcome (get p)) ∈ phaseResults regs pids get := by
  unfold phaseResults
  exact List.mem_filterMap.mpr ⟨pid, hmem, by rw [hreg]; rfl⟩

theorem phaseCallList_mem_of (regs : List (String × Participant)) (pids : List String)
    (mk : String → PCall) (pid : String) (p : Participant)
    (hmem : pid ∈ pids) (hreg : alookup pid regs = some p) :
    mk pid ∈ phaseCallList regs pids mk := by
  unfold phaseCallList
  exact List.mem_filterMap.mpr ⟨pid, hmem, by rw [hreg]; rfl⟩

/-- No call built by a phase with constructor `mk` can equal a call
built by a different constructor; specialised below to rule out commit
calls in prepare/abort call lists. -/
theorem phaseCallList_no_commit (regs : List (String × Participant)) (pids : List String)
    (mk : String → PCall) (hmk : ∀ q pid, mk q ≠ PCall.commitCall pid) (pid : String) :
    PCall.commitCall pid ∉ phaseCallList regs pids mk := by
  intro hmem
  simp only [phaseCallList, List.mem_filterMap] at hmem
  obtain ⟨pid', _, hmap⟩ := hmem
  cases hreg : alookup pid' regs with
  | none => rw [hreg] at hmap; exact absurd hmap (by simp)
  | some p =>
      rw [hreg] at hmap
      have : mk pid' = PCall.commitCall pid := by simpa using hmap
      exact hmk pid' pid this

/-- All phase results are True when every registered named participant
collects True for the phase. -/
theorem phaseResults_all_true (regs : List (String × Participant)) (pids : List String)
    (get : Participant → POutcome)
    (h : ∀ pid ∈ pids, ∀ p, alookup pid regs = some p → collectOutcome (get p) = true) :
    (phaseResults regs pids get).all (fun pr => pr.2) = true := by
  rw [List.all_eq_true]
  intro pr hpr
  obtain ⟨hmem, p, hreg, hval⟩ := phaseResults_mem regs pids get pr hpr
  rw [← hval]
  exact h pr.1 hmem p hreg

/-- A phase has a False result entry as soon as one registered named
participant collects False. -/
theorem phaseResults_all_false (regs : List (String × Participant)) (pids : List String)
    (get : Participant → POutcome) (pid : String) (p : Participant)
    (hmem : pid ∈ pids) (hreg : alookup pid regs = some p)
    (hval : collectOutcome (get p) = false) :
    (phaseResults regs pids get).all (fun pr => pr.2) = false := by
  rcases hall : (phaseResults regs pids get).all (fun pr => pr.2) with _ | _
  · rfl
  · exfalso
    have hm := phaseResults_mem_of regs pids get pid p hmem hreg
    have := (List.all_eq_true.mp hall) _ hm
    rw [hval] at this
    exact Bool.false_ne_true this

/-- C3 (amended): when every registered participant named in the
request prepares successfully and at least one of them fails its commit
call, the transaction ends success = false with status ABORTED, and
the abort phase is broadcast to every registered participant named in
the request — including the ones whose commit already succeeded; no
other form of compensation exists in the coordinator. -/
theorem c3_commit_failure_aborts_and_broadcasts_abort
    (regs : List (String × Participant)) (operationId : String)
    (participants : List String)
    (hprep : ∀ pid ∈ participants, ∀ p, alookup pid regs = some p →
      collectOutcome p.prepareR = true)
    (hfail : ∃ pid ∈ participants, ∃ p, alookup pid regs = some p ∧
      collectOutcome p.commitR = false) :
    (executeTransaction regs operationId participants).1.success = false ∧
    (executeTransaction regs operationId participants).1.status = .aborted ∧
    (∀ pid ∈ participants, ∀ p, alookup pid regs = some p →
      PCall.abortCall pid ∈ (executeTransaction regs operationId participants).2) := by
  obtain ⟨pid0, hmem0, p0, hreg0, hcf⟩ := hfail
  have hprepAll := phaseResults_all_true regs participants (fun p => p.prepareR) hprep
  have hcommitNotAll := phaseResults_all_false regs participants (fun p => p.commitR)
    pid0 p0 hmem0 hreg0 hcf
  simp only [executeTransaction, hprepAll, hcommitNotAll, Bool.false_eq_true, if_true,
    if_false]
  refine ⟨trivial, trivial, ?_⟩
  intro pid hmem p hreg
  have hcall := phaseCallList_mem_of regs participants PCall.abortCall pid p hmem hreg
  simp [hcall]

theorem c3_commit_failure_witness :
    (executeTransaction c3Regs "op2" ["p1", "p2"]).1.success = false ∧
    (executeTransaction c3Regs "op2" ["p1", "p2"]).1.status = .aborted ∧
    PCall.abortCall "p1" ∈ (executeTransaction c3Regs "op2" ["p1", "p2"]).2 := by
  have h := c3_commit_failure_aborts_and_broadcasts_abort c3Regs "op2" ["p1", "p2"]
    (by decide)
    ⟨"p2", by decide, ⟨.val true, .val false, .val true⟩, by decide, rfl⟩
  exact ⟨h.1, h.2.1, h.2.2 "p1" (by decide) ⟨.val true, .val true, .val true⟩ (by decide)⟩

/-- C4: confirmed on the code.  (i) If every registered participant
named in the request collects True for both prepare and commit, the
transaction ends success = true with status COMMITTED.  (ii) If some
registered named participant fails prepare, the transaction ends
success = false with status ABORTED, the abort phase reaches every
registered named participant, and no participant at all receives a
commit call. -/
theorem c4_two_phase_commit_outcomes (regs : List (String × Participant))
    (operationId : String) (participants : List String) :
    ((∀ pid ∈ participants, ∀ p, alookup pid regs = some p →
        collectOutcome p.prepareR = true ∧ collectOutcome p.commitR = true) →
      (executeTransaction regs operationId participants).1.success = true ∧
      (executeTransaction regs operationId participants).1.status = .committed) ∧
    ((∃ pid ∈ participants, ∃ p, alookup pid regs = some p ∧
        collectOutcome p.prepareR = false) →
      (executeTransaction regs operationId participants).1.success = false ∧
      (executeTransaction regs operationId participants).1.status = .aborted ∧
      (∀ pid ∈ participants, ∀ p, alookup pid regs = some p →
        PCall.abortCall pid ∈ (executeTransaction regs operationId participants).2) ∧
      (∀ pid, PCall.commitCall pid ∉ (executeTransaction regs operationId participants).2)) := by
  constructor
  · intro h
    have hprepAll := phaseResults_all_true regs participants (fun p => p.prepareR)
      (fun pid hm p hr => (h pid hm p hr).1)
    have hcommitAll := phaseResults_all_true regs participants (fun p => p.commitR)
      (fun pid hm p hr => (h pid hm p hr).2)
    simp only [executeTransaction, hprepAll, hcommitAll, if_true]
    exact ⟨trivial, trivial⟩
  · intro hfail
    obtain ⟨pid0, hmem0, p0, hreg0, hpf⟩ := hfail
    have hprepNotAll := phaseResults_all_false regs participants (fun p => p.prepareR)
      pid0 p0 hmem0 hreg0 hpf
    simp only [executeTransaction, hprepNotAll, Bool.false_eq_true, if_false]
    refine ⟨trivial, trivial, ?_, ?_⟩
    · intro pid hmem p hreg
      have hcall := phaseCallList_mem_of regs participants PCall.abortCall pid p hmem hreg
      simp [hcall]
    · intro pid
      rw [List.mem_append]
      push_neg
      constructor
      · exact phaseCallList_no_commit regs participants PCall.prepareCall
          (fun q pid' => by simp) pid
      · exact phaseCallList_no_commit regs participants PCall.abortCall
          (fun q pid' => by simp) pid

/-- Two participants where p4 fails prepare. -/
def c4Regs : List (String × Participant) :=
  [("p3", ⟨.val true, .val true, .val true⟩), ("p4", ⟨.val false, .val true, .val true⟩)]

theorem c4_two_phase_commit_witness :
    ((executeTransaction c3Regs "op3" ["p1"]).1.success = true ∧
      (executeTransaction c3Regs "op3" ["p1"]).1.status = .committed) ∧
    ((executeTransaction c4Regs "op4" ["p3", "p4"]).1.status = .aborted ∧
      PCall.abortCall "p3" ∈ (executeTransaction c4Regs "op4" ["p3", "p4"]).2 ∧
      PCall.commitCall "p3" ∉ (executeTransaction c4Regs "op4" ["p3", "p4"]).2) := by
  constructor
  · exact (c4_two_phase_commit_outcomes c3Regs "op3" ["p1"]).1 (by decide)
  · have h := (c4_two_phase_commit_outcomes c4Regs "op4" ["p3", "p4"]).2
      ⟨"p4", by decide, ⟨.val false, .val true, .val true⟩, by decide⟩
    exact ⟨h.2.1, h.2.2.1 "p3" (by decide) ⟨.val true, .val true, .val true⟩ (by decide),
      h.2.2.2 "p3"⟩

/-! ## Leader election (`LeaderElection` in `distributed_coordinator.py`) -/

/-- Per-node election state, from `LeaderElection.__init__`. -/
structure LeaderState : Type where
  nodeId : String
  allNodes : List String
  currentLeader : Option String
  electionInProgress : Bool
  deriving DecidableEq, Repr

/-- The constructor's initial state: no leader, no election running. -/
def initLeaderState (nodeId : String) (allNodes : List String) : LeaderState :=
  ⟨nodeId, allNodes, none, false⟩

/-- `LeaderElection._send_election_messages`: the network exchange is a
stub in the source — every probed node is recorded as not responding. -/
def sendElectionMessages (nodes : List String) : List (String × Bool) :=
  nodes.map (fun n => (n, false))

/-- `LeaderElection.start_election`.  Node ids are compared with
Python string comparison, i.e. lexicographic order. -/
def startElection (st : LeaderState) : String × LeaderState :=
  if st.electionInProgress then
    (st.currentLeader.getD st.nodeId, st)
  else
    let st1 : LeaderState := { st with electionInProgress := true }
    let higherPriorityNodes := st1.allNodes.filter (fun n => st1.nodeId < n)
    if higherPriorityNodes.isEmpty then
      (st1.nodeId, { st1 with currentLeader := some st1.nodeId, electionInProgress := false })
    else
      let responses := sendElectionMessages higherPriorityNodes
      if responses.any (fun r => r.2) then
        -- _wait_for_leader_announcement: a bounded sleep; no announcement
        -- arrives, so the leader recorded beforehand is returned.
        (st1.currentLeader.getD st1.nodeId, { st1 with electionInProgress := false })
      else
        -- No higher-priority node responded: become leader and announce.
        (st1.nodeId, { st1 with currentLeader := some st1.nodeId, electionInProgress := false })

/-- `LeaderElection.is_leader` (comparing `Optional[str]` to the node
id: None never equals a string). -/
def isLeader (st : LeaderState) : Bool :=
  match st.currentLeader with
  | some l => l == st.nodeId
  | none => false

/-- `LeaderElection.get_current_leader`. -/
def getCurrentLeader (st : LeaderState) : Option String :=
  st.currentLeader

theorem sendElectionMessages_none_respond (nodes : List String) :
    (sendElectionMessages nodes).any (fun r => r.2) = false := by
  induction nodes with
  | nil => rfl
  | cons n rest ih => simp [sendElectionMessages]

/-- C10: confirmed on the code.  From the constructor's state, for any
node id and any node set, `start_election` returns the local node id
and leaves the node believing it is the leader: when higher-id nodes
exist the stubbed message exchange reports no responses, so the
election always falls into the become-leader branch. -/
theorem c10_start_election_always_elects_self (nodeId : String) (allNodes : List String) :
    (startElection (initLeaderState nodeId allNodes)).1 = nodeId ∧
    isLeader (startElection (initLeaderState nodeId allNodes)).2 = true ∧
    getCurrentLeader (startElection (initLeaderState nodeId allNodes)).2 = some nodeId := by
  unfold startElection initLeaderState
  simp only [sendElectionMessages_none_respond, Bool.false_eq_true, if_false]
  by_cases h : (allNodes.filter (fun n => decide (nodeId < n))).isEmpty
  · simp [h, isLeader, getCurrentLeader]
  · simp [h, isLeader, getCurrentLeader]

/-! ## Scheduler service (`argos/services/scheduler_service.py`)

Embedded sequentially (the scoped WRITE lock always succeeds in a
single-threaded run).  Schedule ids, uuids in the source, are modelled
as consecutive naturals; `datetime` instants are modelled as integers
(only `<`, `>` comparisons are used by the embedded paths); constraints
registered via `add_constraint` are an environment mapping constraint
ids to satisfaction predicates. -/

/-- `TimeSlot` from the source; `overlaps_with` compares start/end with
strict inequalities, i.e. half-open interval intersection on the same
day. -/
structure TimeSlot : Type where
  startTime : Int
  endTime : Int
  dayOfWeek : Int
  deriving DecidableEq, Repr

/-- `TimeSlot.overlaps_with`. -/
def TimeSlot.overlapsWith (s o : TimeSlot) : Bool :=
  s.startTime < o.endTime && s.endTime > o.startTime && s.dayOfWeek == o.dayOfWeek

theorem overlapsWith_symm (s o : TimeSlot) : s.overlapsWith o = o.overlapsWith s := by
  unfold TimeSlot.overlapsWith
  rcases s with ⟨a, b, d⟩
  rcases o with ⟨a', b', d'⟩
  rw [Bool.eq_iff_iff]
  simp only [Bool.and_eq_true, decide_eq_true_eq, beq_iff_eq, gt_iff_lt]
  constructor
  · rintro ⟨⟨h1, h2⟩, h3⟩
    exact ⟨⟨h2, h1⟩, h3.symm⟩
  · rintro ⟨⟨h1, h2⟩, h3⟩
    exact ⟨⟨h2, h1⟩, h3.symm⟩

/-- The `Room` entity as consulted by the scheduler. -/
structure Room : Type where
  id : String
  capacity : Int
  roomType : String
  equipment : List String
  hasAccessControl : Bool
  roomNumber : String
  deriving DecidableEq, Repr

/-- The `room_requirements` dict of a request: absent keys are `none`
(`.get` defaults are applied at use sites, mirroring the source). -/
structure RoomRequirements : Type where
  minCapacity : Option Int
  roomType : Option String
  equipment : List String
  accessControl : Bool
  deriving DecidableEq, Repr

/-- `ScheduleRequest` from the source. -/
structure ScheduleRequest : Type where
  sectionId : String
  timeSlots : List TimeSlot
  roomRequirements : RoomRequirements
  constraintIds : List String
  deriving DecidableEq, Repr

/-- `ScheduleStatus` from the source. -/
inductive ScheduleStatus : Type
  | draft
  | pending
  | approved
  | active
  | cancelled
  deriving DecidableEq, Repr

/-- A stored schedule record (`schedule_data` dict). -/
structure ScheduleRec : Type where
  sectionId : String
  room : Room
  timeSlots : List TimeSlot
  status : ScheduleStatus
  constraintIds : List String
  deriving DecidableEq, Repr

/-- A registered constraint: its `is_satisfied` predicate over the
candidate `schedule_data` (room, time slots, section id). -/
structure SchedConstraint : Type where
  isSatisfied : Room → List TimeSlot → String → Bool

/-- `ScheduleResult` from the source. -/
structure ScheduleResult : Type where
  success : Bool
  scheduleId : Option Nat
  assignedRoom : Option String
  assignedTimes : List TimeSlot
  conflicts : List String
  message : String
  deriving DecidableEq, Repr

/-- State of `SchedulerService`: `_schedules`, `_room_assignments` and
`_rooms` (instructor schedules are never written on the embedded
paths). -/
structure SchedState : Type where
  schedules : List (Nat × ScheduleRec)
  roomAssignments : List (String × List TimeSlot)
  rooms : List Room
  nextId : Nat

/-- The state after `add_room` has been called once per given room:
each room's assignment ledger starts empty. -/
def initSchedState (rooms : List Room) : SchedState :=
  ⟨[], rooms.map (fun r => (r.id, [])), rooms, 0⟩

/-- A room's assignment ledger. -/
def ledgerOf (st : SchedState) (roomId : String) : List TimeSlot :=
  (alookup roomId st.roomAssignments).getD []

/-- The room filter inside `_find_suitable_rooms`: capacity, room type
(Python truthiness: `None` and the empty string disable the check),
equipment superset, access control. -/
def roomSuitable (rr : RoomRequirements) (room : Room) : Bool :=
  let minCap := rr.minCapacity.getD 1
  let skipType :=
    match rr.roomType with
    | none => false
    | some t => (!(t == "")) && (!(room.roomType == t))
  let skipEquip := (!rr.equipment.isEmpty) && (!(rr.equipment.all (fun e => room.equipment.contains e)))
  let skipAccess := rr.accessControl && (!room.hasAccessControl)
  (!(room.capacity < minCap)) && (!skipType) && (!skipEquip) && (!skipAccess)

/-- The sort key order of `_find_suitable_rooms`: capacity distance to
the requirement, then room number. -/
def roomKeyLe (minCap : Int) (r1 r2 : Room) : Bool :=
  let k1 := (r1.capacity - minCap).natAbs
  let k2 := (r2.capacity - minCap).natAbs
  k1 < k2 || (k1 == k2 && decide (r1.roomNumber ≤ r2.roomNumber))

/-- Stable insertion into a sorted list: an element is placed before
the first strictly-later element, so elements with equal keys keep
their original relative order, as Python's stable `list.sort` does. -/
def insertRoomSorted (le : Room → Room → Bool) (x : Room) : List Room → List Room
  | [] => [x]
  | y :: ys => if le x y then x :: y :: ys else y :: insertRoomSorted le x ys

def sortRoomsBy (le : Room → Room → Bool) : List Room → List Room
  | [] => []
  | x :: xs => insertRoomSorted le x (sortRoomsBy le xs)

/-- `SchedulerService._find_suitable_rooms`. -/
def findSuitableRooms (st : SchedState) (req : ScheduleRequest) : List Room :=
  sortRoomsBy (roomKeyLe (req.roomRequirements.minCapacity.getD 1))
    (st.rooms.filter (roomSuitable req.roomRequirements))

/-- `SchedulerService._check_scheduling_conflicts`: one message per
(requested slot, overlapping ledger slot) pair, then one message per
unsatisfied referenced constraint (unknown constraint ids are
skipped). -/
def checkSchedulingConflicts (cenv : String → Option SchedConstraint) (st : SchedState)
    (req : ScheduleRequest) (room : Room) : List String :=
  let roomConflicts :=
    (req.timeSlots.map (fun t =>
      ((ledgerOf st room.id).filter (fun e => t.overlapsWith e)).map (fun _ =>
        "Room " ++ room.roomNumber ++ " is already booked at " ++ toString t.startTime))).flatten
  let constraintConflicts :=
    req.constraintIds.filterMap (fun cid =>
      match cenv cid with
      | none => none
      | some c =>
          if c.isSatisfied room req.timeSlots req.sectionId then none
          else some ("Constraint violation: " ++ cid))
  roomConflicts ++ constraintConflicts

/-- `SchedulerService.schedule_section`. -/
def scheduleSection (cenv : String → Option SchedConstraint) (st : SchedState)
    (req : ScheduleRequest) : ScheduleResult × SchedState :=
  match findSuitableRooms st req with
  | [] =>
      (⟨false, none, none, [], ["No suitable rooms available"],
          "No suitable rooms found for scheduling"⟩, st)
  | bestRoom :: _ =>
      let conflicts := checkSchedulingConflicts cenv st req bestRoom
      if !conflicts.isEmpty then
        (⟨false, none, none, [], conflicts, "Scheduling conflicts detected"⟩, st)
      else
        let sid := st.nextId
        let rec0 : ScheduleRec :=
          ⟨req.sectionId, bestRoom, req.timeSlots, .approved, req.constraintIds⟩
        (⟨true, some sid, some bestRoom.id, req.timeSlots, [],
            "Section scheduled successfully"⟩,
          { schedules := st.schedules ++ [(sid, rec0)],
            roomAssignments :=
              aset bestRoom.id (ledgerOf st bestRoom.id ++ req.timeSlots)
                st.roomAssignments,
            rooms := st.rooms,
            nextId := sid + 1 })

/-- `SchedulerService.cancel_schedule`: unknown ids fail; otherwise the
record's slots are removed from the room ledger (first matching
occurrence each, exactly the source's guarded `list.remove` loop, which
is `List.diff`) and the record is marked CANCELLED.  A record stays in
`_schedules` after cancellation, so a second cancel of the same id
passes the existence check and removes the slots again. -/
def cancelSchedule (st : SchedState) (scheduleId : Nat) : Bool × SchedState :=
  match alookup scheduleId st.schedules with
  | none => (false, st)
  | some r =>
      (true,
        { st with
            schedules := aupdate scheduleId (fun q => { q with status := .cancelled })
              st.schedules,
            roomAssignments :=
              aset r.room.id ((ledgerOf st r.room.id).diff r.timeSlots)
                st.roomAssignments })

/-- An operation against the scheduler. -/
inductive SchedOp : Type
  | schedule (req : ScheduleRequest)
  | cancel (scheduleId : Nat)

def applySchedOp (cenv : String → Option SchedConstraint) (st : SchedState) :
    SchedOp → SchedState
  | .schedule req => (scheduleSection cenv st req).2
  | .cancel sid => (cancelSchedule st sid).2

def applySchedOps (cenv : String → Option SchedConstraint) (rooms : List Room)
    (ops : List SchedOp) : SchedState :=
  ops.foldl (applySchedOp cenv) (initSchedState rooms)

/-- The claimed invariant: no two distinct non-cancelled schedule
records assign overlapping time slots to the same room. -/
def schedNonOverlap (st : SchedState) : Prop :=
  ∀ p ∈ st.schedules, ∀ q ∈ st.schedules, p.1 ≠ q.1 →
    p.2.status ≠ .cancelled → q.2.status ≠ .cancelled → p.2.room.id = q.2.room.id →
    ∀ t ∈ p.2.timeSlots, ∀ u ∈ q.2.timeSlots, t.overlapsWith u = false

instance (st : SchedState) : Decidable (schedNonOverlap st) := by
  unfold schedNonOverlap
  infer_instance

/-- An empty constraint environment (no `add_constraint` calls). -/
def noConstraints : String → Option SchedConstraint := fun _ => none

def c7Room : Room := ⟨"r1", 10, "lecture", [], false, "101"⟩

def c7Slot : TimeSlot := ⟨540, 600, 0⟩

def c7Req (sectionId : String) : ScheduleRequest :=
  ⟨sectionId, [c7Slot], ⟨some 1, none, [], false⟩, []⟩

/-- The double-cancel sequence: schedule secA (id 0), cancel it,
schedule secB (id 1) into the now-free slot, cancel id 0 AGAIN — the
second cancel passes the existence check and strips secB's slot from
the room ledger — then schedule secC (id 2) into the same slot. -/
def c7Ops : List SchedOp :=
  [.schedule (c7Req "secA"), .cancel 0, .schedule (c7Req "secB"), .cancel 0,
    .schedule (c7Req "secC")]

/-- C7: the unrestricted invariant is refuted on the code.  After
`c7Ops`, schedule records 1 (secB) and 2 (secC) are both APPROVED and
assign the identical slot 540–600 on day 0 to room r1: cancelling an
already-cancelled schedule removes other schedules' slots from the room
ledger. -/
theorem c7_double_cancel_counterexample :
    ¬ schedNonOverlap (applySchedOps noConstraints [c7Room] c7Ops) := by
  intro h
  have h1 : (1, (⟨"secB", c7Room, [c7Slot], .approved, []⟩ : ScheduleRec)) ∈
      (applySchedOps noConstraints [c7Room] c7Ops).schedules := by decide
  have h2 : (2, (⟨"secC", c7Room, [c7Slot], .approved, []⟩ : ScheduleRec)) ∈
      (applySchedOps noConstraints [c7Room] c7Ops).schedules := by decide
  have := h _ h1 _ h2 (by decide) (by decide) (by decide) rfl c7Slot (by decide)
    c7Slot (by decide)
  exact absurd this (by decide)

/-- The multiset of slots that the non-cancelled schedule records of a
record list assign to a given room. -/
def activeSlotsL (l : List (Nat × ScheduleRec)) (rid : String) : Multiset TimeSlot :=
  ((l.filter (fun p => (!(p.2.status == ScheduleStatus.cancelled)) &&
      (p.2.room.id == rid))).map (fun p => p.2.timeSlots)).flatten

theorem activeSlotsL_append (A B : List (Nat × ScheduleRec)) (rid : String) :
    activeSlotsL (A ++ B) rid = activeSlotsL A rid + activeSlotsL B rid := by
  unfold activeSlotsL
  rw [List.filter_append, List.map_append, List.flatten_append, Multiset.coe_add]

theorem activeSlotsL_cons (p : Nat × ScheduleRec) (l : List (Nat × ScheduleRec))
    (rid : String) :
    activeSlotsL (p :: l) rid =
      (if (!(p.2.status == ScheduleStatus.cancelled)) && (p.2.room.id == rid) then
        (p.2.timeSlots : Multiset TimeSlot) else 0) + activeSlotsL l rid := by
  unfold activeSlotsL
  rw [List.filter_cons]
  by_cases h : ((!(p.2.status == ScheduleStatus.cancelled)) && (p.2.room.id == rid)) = true
  · rw [if_pos h, if_pos h, List.map_cons, List.flatten_cons, ← Multiset.coe_add]
  · rw [if_neg h, if_neg h, zero_add]

theorem activeSlotsL_nil (rid : String) : activeSlotsL [] rid = 0 := rfl

theorem mem_activeSlotsL (l : List (Nat × ScheduleRec)) (rid : String)
    (p : Nat × ScheduleRec) (hp : p ∈ l) (hact : p.2.status ≠ ScheduleStatus.cancelled)
    (hroom : p.2.room.id = rid) (t : TimeSlot) (ht : t ∈ p.2.timeSlots) :
    t ∈ activeSlotsL l rid := by
  unfold activeSlotsL
  rw [Multiset.mem_coe, List.mem_flatten]
  refine ⟨p.2.timeSlots, ?_, ht⟩
  apply List.mem_map_of_mem
  refine List.mem_filter.mpr ⟨hp, ?_⟩
  simp [hact, hroom]

/-- The inductive invariant of the scheduler state: schedule-record ids
are below the id counter, every room ledger holds exactly the multiset
of slots of the non-cancelled records assigned to it, and non-cancelled
records never overlap in a room. -/
structure SchedInv (st : SchedState) : Prop where
  keysLt : ∀ p ∈ st.schedules, p.1 < st.nextId
  ledgerEq : ∀ rid : String, (ledgerOf st rid : Multiset TimeSlot) =
    activeSlotsL st.schedules rid
  nonOverlap : schedNonOverlap st

theorem ledgerOf_init (rooms : List Room) (rid : String) :
    ledgerOf (initSchedState rooms) rid = [] := by
  unfold ledgerOf initSchedState
  induction rooms with
  | nil => rfl
  | cons r rest ih =>
      simp only [List.map_cons, alookup]
      by_cases h : r.id = rid
      · simp [h]
      · simpa [h] using ih

theorem schedInv_init (rooms : List Room) : SchedInv (initSchedState rooms) := by
  refine ⟨?_, ?_, ?_⟩
  · intro p hp
    exact absurd hp (List.not_mem_nil p)
  · intro rid
    rw [ledgerOf_init]
    rfl
  · intro p hp
    exact absurd hp (List.not_mem_nil p)

theorem no_overlap_of_conflicts_nil (cenv : String → Option SchedConstraint)
    (st : SchedState) (req : ScheduleRequest) (room : Room)
    (h : checkSchedulingConflicts cenv st req room = []) :
    ∀ t ∈ req.timeSlots, ∀ e ∈ ledgerOf st room.id, t.overlapsWith e = false := by
  simp only [checkSchedulingConflicts] at h
  rw [List.append_eq_nil] at h
  have hroom := h.1
  rw [List.flatten_eq_nil_iff] at hroom
  intro t ht e he
  by_contra hov
  rw [Bool.not_eq_false] at hov
  have hmem := List.mem_map_of_mem (fun t' =>
    ((ledgerOf st room.id).filter (fun e' => t'.overlapsWith e')).map (fun _ =>
      "Room " ++ room.roomNumber ++ " is already booked at " ++ toString t'.startTime)) ht
  have hnil := hroom _ hmem
  rw [List.map_eq_nil_iff, List.filter_eq_nil_iff] at hnil
  exact hnil e he hov

/-- Either `schedule_section` leaves the state unchanged (no suitable
room, or conflicts detected) or the selected room had no conflicts and
the new record and ledger entries are appended. -/
theorem scheduleSection_cases (cenv : String → Option SchedConstraint) (st : SchedState)
    (req : ScheduleRequest) :
    (scheduleSection cenv st req).2 = st ∨
    ∃ best rest, findSuitableRooms st req = best :: rest ∧
      checkSchedulingConflicts cenv st req best = [] ∧
      (scheduleSection cenv st req).2 =
        { schedules := st.schedules ++
            [(st.nextId, ⟨req.sectionId, best, req.timeSlots, .approved, req.constraintIds⟩)],
          roomAssignments :=
            aset best.id (ledgerOf st best.id ++ req.timeSlots) st.roomAssignments,
          rooms := st.rooms,
          nextId := st.nextId + 1 } := by
  unfold scheduleSection
  cases hfind : findSuitableRooms st req with
  | nil => exact Or.inl rfl
  | cons best rest =>
      by_cases hc : (checkSchedulingConflicts cenv st req best).isEmpty
      · refine Or.inr ⟨best, rest, rfl, List.isEmpty_iff.mp hc, ?_⟩
        simp only [hc, Bool.not_true, Bool.false_eq_true, if_false]
      · rw [Bool.not_eq_true] at hc
        simp only [hc, Bool.not_false, if_true]
        exact Or.inl trivial

theorem getD_alookup_aset_eq {κ β : Type} [DecidableEq κ] (k : κ) (v : β)
    (l : List (κ × β)) (d : β) : (alookup k (aset k v l)).getD d = v := by
  rw [alookup_aset_eq]
  rfl

theorem getD_alookup_aset_ne {κ β : Type} [DecidableEq κ] {k k' : κ} (v : β)
    (l : List (κ × β)) (d : β) (h : k' ≠ k) :
    (alookup k' (aset k v l)).getD d = (alookup k' l).getD d := by
  rw [alookup_aset_ne _ _ h]

theorem schedInv_schedule (cenv : String → Option SchedConstraint) (st : SchedState)
    (req : ScheduleRequest) (hinv : SchedInv st) :
    SchedInv ((scheduleSection cenv st req).2) := by
  rcases scheduleSection_cases cenv st req with heq | ⟨best, rest, hfind, hnil, heq⟩
  · rw [heq]
    exact hinv
  · rw [heq]
    have hno := no_overlap_of_conflicts_nil cenv st req best hnil
    refine ⟨?_, ?_, ?_⟩
    · intro p hp
      rcases List.mem_append.mp hp with h | h
      · exact Nat.lt_succ_of_lt (hinv.keysLt p h)
      · rw [List.mem_singleton.mp h]
        exact Nat.lt_succ_self _
    · intro rid
      show ((alookup rid (aset best.id (ledgerOf st best.id ++ req.timeSlots)
          st.roomAssignments)).getD [] : Multiset TimeSlot) =
        activeSlotsL (st.schedules ++ [(st.nextId,
          ⟨req.sectionId, best, req.timeSlots, .approved, req.constraintIds⟩)]) rid
      rw [activeSlotsL_append, activeSlotsL_cons, activeSlotsL_nil, add_zero]
      by_cases hr : rid = best.id
      · rw [hr, getD_alookup_aset_eq, if_pos (by simp), ← Multiset.coe_add,
          hinv.ledgerEq best.id]
      · rw [getD_alookup_aset_ne _ _ _ hr, if_neg (by simp [Ne.symm hr]), add_zero]
        exact hinv.ledgerEq rid
    · intro p hp q hq hne hpact hqact hroom t ht u hu
      rcases List.mem_append.mp hp with hpo | hpn
      · rcases List.mem_append.mp hq with hqo | hqn
        · exact hinv.nonOverlap p hpo q hqo hne hpact hqact hroom t ht u hu
        · have hq' : q = (st.nextId,
              ⟨req.sectionId, best, req.timeSlots, .approved, req.constraintIds⟩) :=
            List.mem_singleton.mp hqn
          subst hq'
          have htl : t ∈ ledgerOf st best.id := by
            have hm := mem_activeSlotsL st.schedules best.id p hpo hpact hroom t ht
            rw [← hinv.ledgerEq best.id, Multiset.mem_coe] at hm
            exact hm
          have hfu := hno u hu t htl
          rw [overlapsWith_symm] at hfu
          exact hfu
      · have hp' : p = (st.nextId,
            ⟨req.sectionId, best, req.timeSlots, .approved, req.constraintIds⟩) :=
          List.mem_singleton.mp hpn
        subst hp'
        rcases List.mem_append.mp hq with hqo | hqn
        · have hul : u ∈ ledgerOf st best.id := by
            have hm := mem_activeSlotsL st.schedules best.id q hqo hqact hroom.symm u hu
            rw [← hinv.ledgerEq best.id, Multiset.mem_coe] at hm
            exact hm
          exact hno t ht u hul
        · have hq' : q = (st.nextId,
              ⟨req.sectionId, best, req.timeSlots, .approved, req.constraintIds⟩) :=
            List.mem_singleton.mp hqn
          subst hq'
          exact absurd rfl hne

theorem alookup_some_split {κ β : Type} [DecidableEq κ] (k : κ) (v : β)
    (l : List (κ × β)) (h : alookup k l = some v) :
    ∃ A B, l = A ++ (k, v) :: B ∧ ∀ p ∈ A, p.1 ≠ k := by
  induction l with
  | nil => cases h
  | cons q rest ih =>
      by_cases hq : q.1 = k
      · unfold alookup at h
        rw [if_pos hq] at h
        have hv : q.2 = v := Option.some_inj.mp h
        refine ⟨[], rest, ?_, ?_⟩
        · rw [List.nil_append]
          congr 1
          rw [← hq, ← hv]
        · intro p hp
          exact absurd hp (List.not_mem_nil p)
      · unfold alookup at h
        rw [if_neg hq] at h
        obtain ⟨A, B, hsplit, hA⟩ := ih h
        refine ⟨q :: A, B, by rw [List.cons_append, hsplit], ?_⟩
        intro p hp
        rcases List.mem_cons.mp hp with rfl | hp'
        · exact hq
        · exact hA p hp'

theorem aupdate_append_first {κ β : Type} [DecidableEq κ] (k : κ) (f : β → β)
    (A : List (κ × β)) (v : β) (B : List (κ × β)) (hA : ∀ p ∈ A, p.1 ≠ k) :
    aupdate k f (A ++ (k, v) :: B) = A ++ (k, f v) :: B := by
  induction A with
  | nil =>
      simp [aupdate]
  | cons q rest ih =>
      have hq : q.1 ≠ k := hA q (List.mem_cons_self q rest)
      rw [List.cons_append, List.cons_append]
      unfold aupdate
      rw [if_neg hq, ih (fun p hp => hA p (List.mem_cons_of_mem q hp))]

theorem schedInv_cancel (st : SchedState) (sid : Nat) (hinv : SchedInv st)
    (hgood : ∀ r, alookup sid st.schedules = some r → r.status ≠ .cancelled) :
    SchedInv ((cancelSchedule st sid).2) := by
  unfold cancelSchedule
  cases hlook : alookup sid st.schedules with
  | none => exact hinv
  | some r =>
      have hract := hgood r hlook
      obtain ⟨A, B, hsplit, hA⟩ := alookup_some_split sid r st.schedules hlook
      have hupd : aupdate sid (fun q => { q with status := ScheduleStatus.cancelled })
          st.schedules = A ++ (sid, { r with status := ScheduleStatus.cancelled }) :: B := by
        rw [hsplit]
        exact aupdate_append_first sid _ A r B hA
      have hbeqStat : (r.status == ScheduleStatus.cancelled) = false := by
        rcases hs : r.status <;> simp_all
      have hcondOld : ∀ rid, ((!(r.status == ScheduleStatus.cancelled)) &&
          (r.room.id == rid)) = (r.room.id == rid) := by
        intro rid
        rw [hbeqStat]
        rfl
      show SchedInv
        { st with
            schedules := aupdate sid (fun q => { q with status := ScheduleStatus.cancelled })
              st.schedules,
            roomAssignments :=
              aset r.room.id ((ledgerOf st r.room.id).diff r.timeSlots)
                st.roomAssignments }
      refine ⟨?_, ?_, ?_⟩
      · intro p hp
        have hp' : p ∈ A ++ ((sid, { r with status := ScheduleStatus.cancelled }) :
            Nat × ScheduleRec) :: B := by
          rw [← hupd]
          exact hp
        show p.1 < st.nextId
        rcases List.mem_append.mp hp' with hpo | hpn
        · exact hinv.keysLt p (by rw [hsplit]; exact List.mem_append_left _ hpo)
        · rcases List.mem_cons.mp hpn with rfl | hpo
          · exact hinv.keysLt (sid, r)
              (by rw [hsplit]; exact List.mem_append_right _ (List.mem_cons_self _ _))
          · exact hinv.keysLt p
              (by rw [hsplit]; exact List.mem_append_right _ (List.mem_cons_of_mem _ hpo))
      · intro rid
        show ((alookup rid (aset r.room.id ((ledgerOf st r.room.id).diff r.timeSlots)
            st.roomAssignments)).getD [] : Multiset TimeSlot) =
          activeSlotsL (aupdate sid (fun q => { q with status := ScheduleStatus.cancelled })
            st.schedules) rid
        rw [hupd, activeSlotsL_append, activeSlotsL_cons]
        have hold := hinv.ledgerEq rid
        rw [hsplit, activeSlotsL_append, activeSlotsL_cons, hcondOld] at hold
        have hcondNew : ((!(({ r with status := ScheduleStatus.cancelled} :
            ScheduleRec).status == ScheduleStatus.cancelled)) &&
            (({ r with status := ScheduleStatus.cancelled} : ScheduleRec).room.id ==
              rid)) = false := by
          simp
        rw [hcondNew, if_neg (by simp), zero_add]
        by_cases hr : rid = r.room.id
        · subst hr
          rw [getD_alookup_aset_eq, ← Multiset.coe_sub, hold, if_pos (by simp)]
          have hre : activeSlotsL A r.room.id + ((r.timeSlots : Multiset TimeSlot) +
              activeSlotsL B r.room.id) = (r.timeSlots : Multiset TimeSlot) +
              (activeSlotsL A r.room.id + activeSlotsL B r.room.id) := by
            rw [← add_assoc,
              add_comm (activeSlotsL A r.room.id) (r.timeSlots : Multiset TimeSlot),
              add_assoc]
          rw [hre, add_tsub_cancel_left]
        · have hbe : (r.room.id == rid) = false := by
            simp only [beq_eq_false_iff_ne]
            exact fun h => hr h.symm
          rw [hbe, if_neg (by simp), zero_add] at hold
          rw [getD_alookup_aset_ne _ _ _ hr]
          exact hold
      · intro p hp q hq hne hpact hqact hroom t ht u hu
        have hp' : p ∈ A ++ ((sid, { r with status := ScheduleStatus.cancelled }) :
            Nat × ScheduleRec) :: B := by
          rw [← hupd]
          exact hp
        have hq' : q ∈ A ++ ((sid, { r with status := ScheduleStatus.cancelled }) :
            Nat × ScheduleRec) :: B := by
          rw [← hupd]
          exact hq
        have hmemOld : ∀ x, x ∈ A ++ ((sid,
            { r with status := ScheduleStatus.cancelled }) : Nat × ScheduleRec) :: B →
            x.2.status ≠ ScheduleStatus.cancelled → x ∈ st.schedules := by
          intro x hx hxact
          rcases List.mem_append.mp hx with hxo | hxn
          · rw [hsplit]
            exact List.mem_append_left _ hxo
          · rcases List.mem_cons.mp hxn with rfl | hxo
            · exact absurd rfl hxact
            · rw [hsplit]
              exact List.mem_append_right _ (List.mem_cons_of_mem _ hxo)
        exact hinv.nonOverlap p (hmemOld p hp' hpact) q (hmemOld q hq' hqact) hne hpact
          hqact hroom t ht u hu

/-- The restriction forced by the double-cancel counterexample: no
`cancel_schedule` call targets a schedule that is already CANCELLED
(calling it on unknown ids remains allowed; it is a no-op). -/
def noDoubleCancel (cenv : String → Option SchedConstraint) :
    SchedState → List SchedOp → Bool
  | _, [] => true
  | st, op :: rest =>
      (match op with
        | .cancel sid =>
            match alookup sid st.schedules with
            | some r => !(r.status == ScheduleStatus.cancelled)
            | none => true
        | .schedule _ => true) &&
      noDoubleCancel cenv (applySchedOp cenv st op) rest

theorem schedInv_foldl (cenv : String → Option SchedConstraint) :
    ∀ (ops : List SchedOp) (st : SchedState), SchedInv st →
      noDoubleCancel cenv st ops = true →
      SchedInv (ops.foldl (applySchedOp cenv) st) := by
  intro ops
  induction ops with
  | nil =>
      intro st h _
      exact h
  | cons op rest ih =>
      intro st hinv hok
      rw [List.foldl_cons]
      cases op with
      | schedule req =>
          have h2 : noDoubleCancel cenv (applySchedOp cenv st (SchedOp.schedule req))
              rest = true := by
            have h : (true && noDoubleCancel cenv
                (applySchedOp cenv st (SchedOp.schedule req)) rest) = true := hok
            simpa using h
          exact ih _ (schedInv_schedule cenv st req hinv) h2
      | cancel sid =>
          have h : ((match alookup sid st.schedules with
              | some r => !(r.status == ScheduleStatus.cancelled)
              | none => true) &&
              noDoubleCancel cenv (applySchedOp cenv st (SchedOp.cancel sid)) rest) =
              true := hok
          rw [Bool.and_eq_true] at h
          refine ih _ (schedInv_cancel st sid hinv ?_) h.2
          intro r hr
          have h1 := h.1
          rw [hr] at h1
          simp only [Bool.not_eq_true'] at h1
          intro hcontra
          rw [hcontra] at h1
          simp at h1

/-- The rejection half of the schedule-overlap contract: if some
requested slot overlaps the selected room's existing ledger, the
request is rejected with a non-empty conflicts list. -/
theorem scheduleSection_rejects_overlap (cenv : String → Option SchedConstraint)
    (st : SchedState) (req : ScheduleRequest) (best : Room) (rest : List Room)
    (hfind : findSuitableRooms st req = best :: rest)
    (hover : ∃ t ∈ req.timeSlots, ∃ e ∈ ledgerOf st best.id, t.overlapsWith e = true) :
    (scheduleSection cenv st req).1.success = false ∧
    (scheduleSection cenv st req).1.conflicts ≠ [] := by
  have hne : checkSchedulingConflicts cenv st req best ≠ [] := by
    intro hnil
    obtain ⟨t, ht, e, he, hov⟩ := hover
    have := no_overlap_of_conflicts_nil cenv st req best hnil t ht e he
    rw [hov] at this
    exact Bool.noConfusion this
  unfold scheduleSection
  rw [hfind]
  have hc : (checkSchedulingConflicts cenv st req best).isEmpty = false :=
    List.isEmpty_eq_false.mpr hne
  simp only [hc, Bool.not_false, if_true]
  refine ⟨?_, ?_⟩
  · simp
  · exact hne

/-- C7 (amended): restricted to operation sequences in which
`cancel_schedule` is never invoked on an already-cancelled schedule —
the restriction the double-cancel counterexample forces — the claim
holds: (i) after any such sequence of `schedule_section` /
`cancel_schedule` operations, no two non-cancelled schedule records
assign overlapping time slots (same day, half-open intervals) to the
same room, and (ii) a `schedule_section` request whose slots overlap an
existing assignment of the selected room is rejected with
success = false and a non-empty conflicts list. -/
theorem c7_schedule_no_overlap_amended :
    (∀ (cenv : String → Option SchedConstraint) (rooms : List Room) (ops : List SchedOp),
      noDoubleCancel cenv (initSchedState rooms) ops = true →
      schedNonOverlap (applySchedOps cenv rooms ops)) ∧
    (∀ (cenv : String → Option SchedConstraint) (st : SchedState) (req : ScheduleRequest)
      (best : Room) (rest : List Room),
      findSuitableRooms st req = best :: rest →
      (∃ t ∈ req.timeSlots, ∃ e ∈ ledgerOf st best.id, t.overlapsWith e = true) →
      (scheduleSection cenv st req).1.success = false ∧
      (scheduleSection cenv st req).1.conflicts ≠ []) := by
  constructor
  · intro cenv rooms ops h
    exact (schedInv_foldl cenv ops (initSchedState rooms) (schedInv_init rooms) h).nonOverlap
  · intro cenv st req best rest hfind hover
    exact scheduleSection_rejects_overlap cenv st req best rest hfind hover

/-- The scheduler state with secA scheduled into room r1 (ledger holds
slot 540–600 on day 0). -/
def c7WitnessState : SchedState :=
  applySchedOps noConstraints [c7Room] [.schedule (c7Req "secA")]

theorem c7_schedule_no_overlap_witness :
    schedNonOverlap (applySchedOps noConstraints [c7Room]
      [.schedule (c7Req "secA"), .cancel 0, .schedule (c7Req "secB")]) ∧
    (scheduleSection noConstraints c7WitnessState (c7Req "secD")).1.success = false ∧
    (scheduleSection noConstraints c7WitnessState (c7Req "secD")).1.conflicts ≠ [] := by
  refine ⟨?_, ?_⟩
  · exact c7_schedule_no_overlap_amended.1 noConstraints [c7Room]
      [.schedule (c7Req "secA"), .cancel 0, .schedule (c7Req "secB")] (by decide)
  · exact c7_schedule_no_overlap_amended.2 noConstraints c7WitnessState (c7Req "secD")
      c7Room [] (by decide) (by decide)

end Argos
